import Mathlib

set_option maxRecDepth 4000

/-!
Verification development for the db-backup-utility repository: a shallow
embedding of the streaming backup/restore transform chains, the backup
operation controller, the retention enforcer, the object-key builder and
the config-file encryption envelope, with theorems settling the frozen
claims about them.
-/

/-- Byte sequences, as lists of naturals (a real byte is a value below 256). -/
abbrev Bytes := List Nat

/-! ## Stream transform models

The compressors (gzip / zstd) and the DARE streaming AEAD (minio/sio) are
external libraries, used by the repository only through
`compress.WrapWriter` / `compress.WrapReader` (internal/compress) and
`cryptoutil.EncryptWriter` / `cryptoutil.DecryptReader`
(internal/cryptoutil). The spec (sections 1 and 4.3) treats them as
pluggable reversible stream transforms whose readers fail on input that is
not output of the matching writer. They are modelled here as framed codecs:
the writer prepends the format's magic header, the reader rejects input
that does not start with it (gzip.NewReader rejects a wrong magic number,
sio.DecryptReader rejects a stream without a valid authenticated DARE
header). The two magic headers differ in their first byte, as the real
formats do. -/

/-- Leading bytes of the modelled compressed format (gzip's magic number). -/
def compMagic : Bytes := [31, 139]

/-- Model of `compress.WrapWriter`'s effect on a full stream: the compressed
frame for `data`. -/
def compWrap (data : Bytes) : Bytes := compMagic ++ data

/-- Model of `compress.WrapReader`'s effect on a full stream: decompression,
failing on input that is not a compressed frame. -/
def compUnwrap (bs : Bytes) : Option Bytes :=
  if bs.take 2 = compMagic then some (bs.drop 2) else none

/-- Leading bytes of the modelled encrypted format (the DARE header). -/
def encMagic : Bytes := [32, 0]

/-- Model of `cryptoutil.EncryptWriter`'s effect on a full stream: an
authenticated frame holding the keyed transformation of `data`. -/
def encWrap (key : Nat) (data : Bytes) : Bytes :=
  encMagic ++ data.map (fun b => b ^^^ key)

/-- Model of `cryptoutil.DecryptReader`'s effect on a full stream: decryption,
failing closed on input that does not carry the encrypted format's header
(authentication failure). -/
def encUnwrap (key : Nat) (bs : Bytes) : Option Bytes :=
  if bs.take 2 = encMagic then some ((bs.drop 2).map (fun b => b ^^^ key)) else none

/-- Write-side transform chain of `App.Backup` (internal/app).
The Go code builds the chain by wrapping writers:
`writer := pipeWriter`; when compression is configured
(`Backup.Compression` neither empty nor "none"),
`writer = compress.WrapWriter(kind, writer)`; when encryption is on,
`writer = cryptoutil.EncryptWriter(writer, key)`; then
`io.Copy(writer, dumpStream.Reader)`. A wrapped writer applies its
transform to the bytes written to it and forwards the result to the writer
it wraps, so the dump bytes pass through the encryption writer first (when
enabled) and through the compression writer second; the pipe — and hence
the storage sink — receives the result. `compressionOn` stands for a
configured, supported compression kind; `encryptionOn` for
`Backup.Encryption`. -/
def backupStored (compressionOn encryptionOn : Bool) (key : Nat) (data : Bytes) : Bytes :=
  let afterEnc := if encryptionOn then encWrap key data else data
  if compressionOn then compWrap afterEnc else afterEnc

/-- Read-side transform chain of `App.Restore` (internal/app):
`payload := storageReader`; when encryption applies,
`payload = cryptoutil.DecryptReader(payload, key)`; then
`compReader = compress.WrapReader(compression, payload)` and the consumer
reads from `compReader`. Stored bytes are therefore decrypted first and
decompressed second. -/
def restoreDecoded (compressionOn encryptionOn : Bool) (key : Nat) (stored : Bytes) :
    Option Bytes :=
  (if encryptionOn then encUnwrap key stored else some stored).bind
    (fun payload => if compressionOn then compUnwrap payload else some payload)

theorem compUnwrap_compWrap (data : Bytes) : compUnwrap (compWrap data) = some data := by
  simp [compUnwrap, compWrap, compMagic]

theorem encUnwrap_encWrap (key : Nat) (data : Bytes) :
    encUnwrap key (encWrap key data) = some data := by
  simp [encUnwrap, encWrap, encMagic, List.map_map, Function.comp_def,
    Nat.xor_assoc, Nat.xor_self, Nat.xor_zero]

/-- C1: the claim reads that with both transforms selected the storage sink
receives `encrypt (compress data)` and the restore consumer receives
`decompress (decrypt stored)`. The code's write path actually hands the
sink `compress (encrypt data)`: encryption runs first, compression second,
which differs from `encrypt (compress data)` already on the one-byte input
`[7]` with key 5. The read path does decrypt first and decompress second,
as claimed. The write path therefore contradicts the claim (and the
repository's own ARCHITECTURE.md data flow and its restore path): a code
bug. -/
theorem c1_write_chain_order :
    (∀ (key : Nat) (data : Bytes),
        backupStored true true key data = compWrap (encWrap key data)) ∧
      backupStored true true 5 [7] ≠ encWrap 5 (compWrap [7]) ∧
      ∀ (key : Nat) (stored : Bytes),
        restoreDecoded true true key stored = (encUnwrap key stored).bind compUnwrap := by
  refine ⟨fun key data => rfl, by decide, fun key stored => rfl⟩

/-- C2: round-trip identity across the four transform combinations. It holds
for no-compression/no-encryption, compression-only and encryption-only, but
fails when compression and encryption are both selected: the write side
stores `compress (encrypt data)` while the read side computes
`decompress (decrypt stored)`, and decryption fails closed on the
compressed frame. Already for the input `[7]` (indeed for any input) the
restore of the stored artifact yields an error instead of the data: a code
bug in the write chain's wrapping order. -/
theorem c2_round_trip :
    (∀ (key : Nat) (data : Bytes),
        restoreDecoded false false key (backupStored false false key data) = some data) ∧
      (∀ (key : Nat) (data : Bytes),
        restoreDecoded true false key (backupStored true false key data) = some data) ∧
      (∀ (key : Nat) (data : Bytes),
        restoreDecoded false true key (backupStored false true key data) = some data) ∧
      restoreDecoded true true 5 (backupStored true true 5 [7]) = none := by
  refine ⟨fun key data => rfl, ?_, ?_, by decide⟩
  · intro key data
    simp [restoreDecoded, backupStored, compUnwrap_compWrap]
  · intro key data
    simp [restoreDecoded, backupStored, encUnwrap_encWrap]

/-! ## Operation controller model: App.Backup

`App.Backup` (internal/app) is a straight-line sequence of calls into
collaborators (lock, window check, adapter, storage, notifier). The model
takes the outcome each collaborator would report as an environment and
replays the control flow, recording an event trace. Go errors are modelled
as their message strings. The notification is emitted by a `defer`
installed at function entry, so it runs on every exit path; the lock
release `defer` is installed after a successful acquisition and, defers
running in reverse order, precedes the notification on those paths. The
deferred notification reads the function-local `opErr`, which the code
assigns on every error return except the window-check error return
(`if err != nil { return nil, err }` with no `opErr = err`). -/

/-- Go errors, modelled as their message strings. -/
abbrev Err := String

/-- `statusFromErr` (internal/app): notification status from the recorded
operation error. -/
def statusFromErr (err : Option Err) : String :=
  match err with
  | none => "success"
  | some _ => "failed"

/-- Events of one `App.Backup` invocation, in the order the code reaches
them. `pipelineRun` is the launch of the two errgroup tasks (the storage
`Put` sink task and the transform/encode task); `waitProducer` is the call
`dumpStream.Wait()`; `awaitTasks` is `eg.Wait()`. -/
inductive BStep where
  | acquire
  | release
  | windowCheck
  | validateCheck
  | existsCheck
  | dumpStart
  | pipelineRun
  | waitProducer
  | awaitTasks
  | statCall
  | manifestWrite
  | retentionPass
  | notifyEvent (status : String)
  deriving DecidableEq, Repr

/-- Outcomes the collaborators of one `App.Backup` invocation would report:
everything the control flow branches on. `isIncrementalType` and
`isDifferentialType` stand for `strings.EqualFold(Backup.Type, ...)`. -/
structure BackupEnv where
  lockResult : Option Err
  windowResult : Except Err Bool
  validateResult : Option Err
  isIncrementalType : Bool
  isDifferentialType : Bool
  capsIncremental : Bool
  capsDifferential : Bool
  adapterName : String
  encryption : Bool
  encryptionKey : String
  idempotent : Bool
  existsResult : Except Err Bool
  artifactKey : String
  dumpResult : Option Err
  waitResult : Option Err
  tasksResult : Option Err
  statResult : Except Err Int
  manifestResult : Option Err
  retentionResult : Option Err
  deriving Repr

/-- Result of one modelled `App.Backup` invocation: the returned error (if
any) and the event trace. -/
structure BackupOut where
  result : Option Err
  trace : List BStep
  deriving DecidableEq, Repr

/-- Exit before the lock was acquired: only the deferred notification runs. -/
def backupExitNoLock (opErr ret : Option Err) (tr : List BStep) : BackupOut :=
  ⟨ret, tr ++ [BStep.notifyEvent (statusFromErr opErr)]⟩

/-- Exit with the lock held: the deferred release runs, then the deferred
notification. -/
def backupExitLocked (opErr ret : Option Err) (tr : List BStep) : BackupOut :=
  ⟨ret, tr ++ [BStep.release, BStep.notifyEvent (statusFromErr opErr)]⟩

/-- Sequential model of `App.Backup` (internal/app): lock, window check,
adapter validation, capability checks, encryption-key check, idempotency
gate, dump start, concurrent pipeline (modelled by its outcome), stat,
manifest write, retention pass, with the code's early returns and its
`opErr` assignments replayed exactly. The window-check error return leaves
`opErr` unset, as in the code. `dumpStream.Wait()` is called before
`eg.Wait()`; when it fails the pipe is torn down, `eg.Wait()` is still
called (discarded) and the Wait error is returned. -/
def backupRun (env : BackupEnv) : BackupOut :=
  match env.lockResult with
  | some e => backupExitNoLock (some e) (some e) [BStep.acquire]
  | none =>
    match env.windowResult with
    | Except.error e =>
        backupExitLocked none (some e) [BStep.acquire, BStep.windowCheck]
    | Except.ok false =>
        let e := "current time is outside configured backup window"
        backupExitLocked (some e) (some e) [BStep.acquire, BStep.windowCheck]
    | Except.ok true =>
      match env.validateResult with
      | some e =>
          backupExitLocked (some e) (some e)
            [BStep.acquire, BStep.windowCheck, BStep.validateCheck]
      | none =>
        let tr0 := [BStep.acquire, BStep.windowCheck, BStep.validateCheck]
        if env.isIncrementalType ∧ ¬env.capsIncremental then
          let e := "incremental backups are not supported for " ++ env.adapterName
          backupExitLocked (some e) (some e) tr0
        else if env.isDifferentialType ∧ ¬env.capsDifferential then
          let e := "differential backups are not supported for " ++ env.adapterName
          backupExitLocked (some e) (some e) tr0
        else if env.encryption ∧ env.encryptionKey = "" then
          let e := "encryption is enabled but encryption_key is empty"
          backupExitLocked (some e) (some e) tr0
        else
          match (if env.idempotent then some env.existsResult else none) with
          | some (Except.error e) =>
              backupExitLocked (some e) (some e) (tr0 ++ [BStep.existsCheck])
          | some (Except.ok true) =>
              let e := "backup already exists: " ++ env.artifactKey
              backupExitLocked (some e) (some e) (tr0 ++ [BStep.existsCheck])
          | _ =>
            let tr1 := tr0 ++ (if env.idempotent then [BStep.existsCheck] else [])
                ++ [BStep.dumpStart]
            match env.dumpResult with
            | some e => backupExitLocked (some e) (some e) tr1
            | none =>
              let tr2 := tr1 ++ [BStep.pipelineRun, BStep.waitProducer, BStep.awaitTasks]
              match env.waitResult with
              | some e => backupExitLocked (some e) (some e) tr2
              | none =>
                match env.tasksResult with
                | some e => backupExitLocked (some e) (some e) tr2
                | none =>
                  match env.statResult with
                  | Except.error e =>
                      backupExitLocked (some e) (some e) (tr2 ++ [BStep.statCall])
                  | Except.ok _ =>
                    backupExitLocked none none
                      (tr2 ++ [BStep.statCall, BStep.manifestWrite, BStep.retentionPass])


/-- Preconditions under which `App.Backup` reaches its pipeline: lock
acquired, inside the window, adapter valid, backup type supported,
encryption key present when needed, idempotency gate passed, dump started. -/
def ReachesPipeline (env : BackupEnv) : Prop :=
  env.lockResult = none ∧
    env.windowResult = Except.ok true ∧
    env.validateResult = none ∧
    (env.isIncrementalType = true → env.capsIncremental = true) ∧
    (env.isDifferentialType = true → env.capsDifferential = true) ∧
    (env.encryption = true → env.encryptionKey ≠ "") ∧
    (env.idempotent = true → env.existsResult = Except.ok false) ∧
    env.dumpResult = none

/-- The trace prefix of a run that has reached the pipeline, up to and
including the two awaits. -/
def pipeTrace (env : BackupEnv) : List BStep :=
  [BStep.acquire, BStep.windowCheck, BStep.validateCheck] ++
    (if env.idempotent then [BStep.existsCheck] else []) ++
    [BStep.dumpStart, BStep.pipelineRun, BStep.waitProducer, BStep.awaitTasks]

/-- Under `ReachesPipeline` the run reduces to the pipeline tail. -/
theorem backupRun_pipeline_tail (env : BackupEnv) (h : ReachesPipeline env) :
    backupRun env =
      match env.waitResult, env.tasksResult, env.statResult with
      | some e, _, _ => backupExitLocked (some e) (some e) (pipeTrace env)
      | none, some e, _ => backupExitLocked (some e) (some e) (pipeTrace env)
      | none, none, Except.error e =>
          backupExitLocked (some e) (some e) (pipeTrace env ++ [BStep.statCall])
      | none, none, Except.ok _ =>
          backupExitLocked none none
            (pipeTrace env ++ [BStep.statCall, BStep.manifestWrite, BStep.retentionPass]) := by
  obtain ⟨hlock, hwin, hval, hinc, hdiff, henc, hidem, hdump⟩ := h
  have h1 : ¬(env.isIncrementalType = true ∧ ¬env.capsIncremental = true) := by
    rintro ⟨ha, hb⟩; exact hb (hinc ha)
  have h2 : ¬(env.isDifferentialType = true ∧ ¬env.capsDifferential = true) := by
    rintro ⟨ha, hb⟩; exact hb (hdiff ha)
  have h3 : ¬(env.encryption = true ∧ env.encryptionKey = "") := by
    rintro ⟨ha, hb⟩; exact henc ha hb
  by_cases hid : env.idempotent = true
  · simp only [backupRun, pipeTrace, hlock, hwin, hval, hdump, if_neg h1, if_neg h2,
      if_neg h3, hid, hidem hid, if_true]
    cases env.waitResult <;> cases env.tasksResult <;> cases env.statResult <;>
      simp [List.append_assoc]
  · have hid' : env.idempotent = false := by
      cases hietf : env.idempotent
      · rfl
      · exact absurd hietf hid
    simp only [backupRun, pipeTrace, hlock, hwin, hval, hdump, if_neg h1, if_neg h2,
      if_neg h3, hid']
    cases env.waitResult <;> cases env.tasksResult <;> cases env.statResult <;>
      simp [List.append_assoc]

/-- A fully successful environment for one `App.Backup` invocation. -/
def happyEnv : BackupEnv where
  lockResult := none
  windowResult := Except.ok true
  validateResult := none
  isIncrementalType := false
  isDifferentialType := false
  capsIncremental := false
  capsDifferential := false
  adapterName := "sqlite"
  encryption := false
  encryptionKey := ""
  idempotent := false
  existsResult := Except.ok false
  artifactKey := "sqlite/app/20240101T000000Z_full.backup"
  dumpResult := none
  waitResult := none
  tasksResult := none
  statResult := Except.ok 42
  manifestResult := none
  retentionResult := none

/-- C3: refuted on the code. In every backup run that reaches the pipeline
the code calls `dumpStream.Wait()` (the producer's completion signal)
strictly before `eg.Wait()` (the await of the two pipeline tasks) — the
trace of a fully successful run shows the Wait awaited first, contrary to
the claim's (and the spec's) "awaited only after both tasks complete".
The half of the claim the code does honor is also evaluated: when the
producer's Wait reports an error after an otherwise clean pipeline, the
backup returns that error rather than success. -/
theorem c3_wait_awaited_before_tasks :
    (BStep.waitProducer ∈ (backupRun happyEnv).trace ∧
      BStep.awaitTasks ∈ (backupRun happyEnv).trace ∧
      (backupRun happyEnv).trace.indexOf BStep.waitProducer <
        (backupRun happyEnv).trace.indexOf BStep.awaitTasks) ∧
      (backupRun { happyEnv with waitResult := some "exit 1" }).result = some "exit 1" := by
  decide

/-- Environment in which the window check itself errors (for example the
configured window start does not parse, or the timezone name is unknown:
`util.InWindow` then returns `(false, err)`). -/
def windowErrEnv : BackupEnv :=
  { happyEnv with windowResult := Except.error "invalid window start" }

/-- C4: refuted by the window-check error path. `App.Backup` returns the
window-check error to its caller, but its deferred notification — emitted
exactly once, as on every path — carries status "success", because this
return path never assigns `opErr`. So the emitted event's status is not
the failure status although the invocation returned an error: a code bug
(every other error return in Backup and Restore assigns `opErr` first). -/
theorem c4_window_error_notifies_success :
    (backupRun windowErrEnv).result = some "invalid window start" ∧
      (backupRun windowErrEnv).trace.getLast? = some (BStep.notifyEvent "success") ∧
      ((backupRun windowErrEnv).trace.filter
        (fun st => match st with | BStep.notifyEvent _ => true | _ => false)).length = 1 := by
  decide

/-- C6: when the idempotency gate is enabled and the storage backend reports
an object already present at the computed key, the backup returns the
pre-existing-artifact error and stops before any write: the dump is never
started, the pipeline (with its storage `Put`) never runs, and no manifest
is written. -/
theorem c6_idempotency_gate (env : BackupEnv)
    (hlock : env.lockResult = none)
    (hwin : env.windowResult = Except.ok true)
    (hval : env.validateResult = none)
    (hinc : env.isIncrementalType = true → env.capsIncremental = true)
    (hdiff : env.isDifferentialType = true → env.capsDifferential = true)
    (henc : env.encryption = true → env.encryptionKey ≠ "")
    (hid : env.idempotent = true)
    (hex : env.existsResult = Except.ok true) :
    (backupRun env).result = some ("backup already exists: " ++ env.artifactKey) ∧
      BStep.dumpStart ∉ (backupRun env).trace ∧
      BStep.pipelineRun ∉ (backupRun env).trace ∧
      BStep.manifestWrite ∉ (backupRun env).trace := by
  have h1 : ¬(env.isIncrementalType = true ∧ ¬env.capsIncremental = true) := by
    rintro ⟨ha, hb⟩; exact hb (hinc ha)
  have h2 : ¬(env.isDifferentialType = true ∧ ¬env.capsDifferential = true) := by
    rintro ⟨ha, hb⟩; exact hb (hdiff ha)
  have h3 : ¬(env.encryption = true ∧ env.encryptionKey = "") := by
    rintro ⟨ha, hb⟩; exact henc ha hb
  simp only [backupRun, hlock, hwin, hval, if_neg h1, if_neg h2, if_neg h3, hid, hex,
    if_true]
  simp [backupExitLocked, statusFromErr]

/-- Environment with the idempotency gate enabled and the artifact already
present at the computed key. -/
def dupKeyEnv : BackupEnv :=
  { happyEnv with idempotent := true, existsResult := Except.ok true }

/-- C6 witness: the idempotency-gate theorem at a concrete environment with
an already-present artifact. -/
theorem c6_idempotency_gate_witness :
    (backupRun dupKeyEnv).result =
      some ("backup already exists: " ++ "sqlite/app/20240101T000000Z_full.backup") ∧
      BStep.dumpStart ∉ (backupRun dupKeyEnv).trace ∧
      BStep.pipelineRun ∉ (backupRun dupKeyEnv).trace ∧
      BStep.manifestWrite ∉ (backupRun dupKeyEnv).trace :=
  c6_idempotency_gate dupKeyEnv
    rfl rfl rfl (by simp [dupKeyEnv, happyEnv]) (by simp [dupKeyEnv, happyEnv])
    (by simp [dupKeyEnv, happyEnv]) rfl rfl

/-- C7: once the artifact is stored and stat succeeds, a manifest-write
failure does not change the outcome: the backup still returns success (the
model's result does not depend on the manifest-write outcome, which the
code only logs) and the run proceeded through the manifest write and the
retention pass. -/
theorem c7_manifest_failure_not_fatal (env : BackupEnv) (h : ReachesPipeline env)
    (hwait : env.waitResult = none) (htasks : env.tasksResult = none)
    (hstat : ∃ n, env.statResult = Except.ok n)
    (_hman : ∃ e, env.manifestResult = some e) :
    (backupRun env).result = none ∧
      BStep.manifestWrite ∈ (backupRun env).trace ∧
      BStep.retentionPass ∈ (backupRun env).trace := by
  obtain ⟨n, hn⟩ := hstat
  rw [backupRun_pipeline_tail env h, hwait, htasks, hn]
  simp [backupExitLocked]

/-- C7 witness: the theorem at a concrete run whose manifest write fails. -/
theorem c7_manifest_failure_witness :
    (backupRun { happyEnv with manifestResult := some "manifest put failed" }).result =
        none ∧
      BStep.manifestWrite ∈
        (backupRun { happyEnv with manifestResult := some "manifest put failed" }).trace ∧
      BStep.retentionPass ∈
        (backupRun { happyEnv with manifestResult := some "manifest put failed" }).trace :=
  c7_manifest_failure_not_fatal { happyEnv with manifestResult := some "manifest put failed" }
    (by simp [ReachesPipeline, happyEnv]) rfl rfl ⟨42, rfl⟩ ⟨"manifest put failed", rfl⟩

/-! ## Manifest keys and the retention enforcer

`storage.ManifestSuffix` / `storage.ManifestKey` (internal/storage) and
`App.applyRetention` (internal/app). Modification times are modelled as
integers (seconds); `time.Now().AddDate(0, 0, -KeepDays)` becomes
subtracting `KeepDays` days of seconds. Sizes are `Int` (Go `int64`). The
storage backends mark an object as a manifest by key suffix; the listing's
flag is carried in `ObjectInfo.IsManifest` and is modelled as a field. -/

/-- `storage.ManifestSuffix`. -/
def ManifestSuffix : String := ".manifest.json"

/-- `storage.ManifestKey`: the sibling manifest object's key. -/
def ManifestKey (objectKey : String) : String := objectKey ++ ManifestSuffix

/-- `storage.ObjectInfo`, as consumed by the retention pass. -/
structure ObjectInfo where
  key : String
  size : Int
  modified : Int
  isManifest : Bool
  deriving DecidableEq, Repr

/-- `config.RetentionPolicy`: `KeepLast`, `KeepDays` (Go int) and
`MaxBytes` (Go int64). -/
structure RetentionPolicy where
  keepLast : Int
  keepDays : Int
  maxBytes : Int
  deriving DecidableEq, Repr

/-- Seconds in one day (`AddDate(0, 0, -KeepDays)` subtracts whole days). -/
def secondsPerDay : Int := 86400

/-- Insertion of one object into a list sorted by modification time,
newest first (the comparator of `sort.Slice`: `Modified.After`). -/
def insertDesc (o : ObjectInfo) : List ObjectInfo → List ObjectInfo
  | [] => [o]
  | x :: xs => if o.modified > x.modified then o :: x :: xs else x :: insertDesc o xs

/-- Sorting by modification time, newest first. -/
def sortByModifiedDesc (l : List ObjectInfo) : List ObjectInfo :=
  l.foldr insertDesc []

/-- The deletion walk of `App.applyRetention`: position `i`, running total
`total`; an artifact outside all three retain conditions is deleted
together with its sibling manifest and its size leaves the running total. -/
def retentionLoop (policy : RetentionPolicy) (cutoff : Int) :
    List ObjectInfo → Nat → Int → List String
  | [], _, _ => []
  | obj :: rest, i, total =>
    if policy.keepLast > 0 ∧ (i : Int) < policy.keepLast then
      retentionLoop policy cutoff rest (i + 1) total
    else if policy.keepDays > 0 ∧ obj.modified > cutoff then
      retentionLoop policy cutoff rest (i + 1) total
    else if policy.maxBytes > 0 ∧ total ≤ policy.maxBytes then
      retentionLoop policy cutoff rest (i + 1) total
    else
      obj.key :: ManifestKey obj.key :: retentionLoop policy cutoff rest (i + 1) (total - obj.size)

/-- `App.applyRetention` (internal/app): the keys it deletes, in order. A
no-op when all three policy fields are zero; otherwise manifests are
excluded, artifacts sorted newest first, the total size computed, and the
walk deletes what no condition retains. -/
def applyRetention (now : Int) (policy : RetentionPolicy) (objects : List ObjectInfo) :
    List String :=
  if policy.keepDays = 0 ∧ policy.keepLast = 0 ∧ policy.maxBytes = 0 then []
  else
    let backups := objects.filter (fun o => !o.isManifest)
    let sorted := sortByModifiedDesc backups
    let cutoff := now - policy.keepDays * secondsPerDay
    let total := (sorted.map (fun o => o.size)).sum
    retentionLoop policy cutoff sorted 0 total

/-- The retain condition exactly as the claim words it: an artifact at
position `i` is retained if `keep_last > 0` and `i < keep_last`, or
`keep_days > 0` and its modification time is newer than `now` minus
`keep_days`, or `max_bytes > 0` and the remaining running total is at most
`max_bytes`. -/
def specRetains (policy : RetentionPolicy) (cutoff : Int) (i : Nat)
    (modified remaining : Int) : Bool :=
  (decide (policy.keepLast > 0) && decide ((i : Int) < policy.keepLast)) ||
    (decide (policy.keepDays > 0) && decide (modified > cutoff)) ||
    (decide (policy.maxBytes > 0) && decide (remaining ≤ policy.maxBytes))

/-- The walk as the claim describes it, deleting what `specRetains` does
not retain. -/
def specWalk (policy : RetentionPolicy) (cutoff : Int) :
    List ObjectInfo → Nat → Int → List String
  | [], _, _ => []
  | obj :: rest, i, remaining =>
    if specRetains policy cutoff i obj.modified remaining then
      specWalk policy cutoff rest (i + 1) remaining
    else
      obj.key :: ManifestKey obj.key :: specWalk policy cutoff rest (i + 1) (remaining - obj.size)

/-- The retention pass exactly as the claim describes it. -/
def specRetention (now : Int) (policy : RetentionPolicy) (objects : List ObjectInfo) :
    List String :=
  if policy.keepDays = 0 ∧ policy.keepLast = 0 ∧ policy.maxBytes = 0 then []
  else
    let artifacts := objects.filter (fun o => !o.isManifest)
    let sorted := sortByModifiedDesc artifacts
    specWalk policy (now - policy.keepDays * secondsPerDay) sorted 0
      ((sorted.map (fun o => o.size)).sum)

theorem retentionLoop_eq_specWalk (policy : RetentionPolicy) (cutoff : Int) :
    ∀ (l : List ObjectInfo) (i : Nat) (total : Int),
      retentionLoop policy cutoff l i total = specWalk policy cutoff l i total := by
  intro l
  induction l with
  | nil => intro i total; rfl
  | cons obj rest ih =>
    intro i total
    by_cases hA : policy.keepLast > 0 ∧ (i : Int) < policy.keepLast
    · simp [retentionLoop, specWalk, specRetains, hA.1, hA.2, ih]
    · by_cases hB : policy.keepDays > 0 ∧ obj.modified > cutoff
      · simp only [retentionLoop, specWalk, if_neg hA, if_pos hB]
        have : specRetains policy cutoff i obj.modified total = true := by
          simp [specRetains, hB.1, hB.2]
        simp [this, ih]
      · by_cases hC : policy.maxBytes > 0 ∧ total ≤ policy.maxBytes
        · simp only [retentionLoop, specWalk, if_neg hA, if_neg hB, if_pos hC]
          have : specRetains policy cutoff i obj.modified total = true := by
            simp [specRetains, hC.1, hC.2]
          simp [this, ih]
        · simp only [retentionLoop, specWalk, if_neg hA, if_neg hB, if_neg hC]
          have : specRetains policy cutoff i obj.modified total = false := by
            simp only [specRetains, Bool.or_eq_false_iff, Bool.and_eq_false_iff,
              decide_eq_false_iff_not, not_lt]
            push_neg at hA hB hC
            constructor
            · constructor
              · by_cases h1 : policy.keepLast > 0
                · exact Or.inr (by simpa using hA h1)
                · exact Or.inl (by omega)
              · by_cases h2 : policy.keepDays > 0
                · exact Or.inr (by simpa using hB h2)
                · exact Or.inl (by omega)
            · by_cases h3 : policy.maxBytes > 0
              · exact Or.inr (by simpa using hC h3)
              · exact Or.inl (by omega)
          simp [this, ih]

/-- The five-artifact listing of the claim's example: ages 0, 1, 2, 3 and 10
days, each of size 10, with `now = 0` (times in seconds). -/
def exampleListing : List ObjectInfo :=
  [⟨"a0", 10, 0, false⟩,
    ⟨"a1", 10, -86400, false⟩,
    ⟨"a2", 10, -172800, false⟩,
    ⟨"a3", 10, -259200, false⟩,
    ⟨"a4", 10, -864000, false⟩]

/-- C5: the retention pass deletes exactly what the claim's algorithm
prescribes — the code's walk equals the walk written from the claim's
wording (manifests excluded, artifacts sorted newest first, retain by
`keep_last` position, by `keep_days` recency or by `max_bytes` remaining
running total, otherwise delete artifact and sibling manifest and subtract
its size) — the pass is a no-op when all three policy fields are zero, and
on the example (ages 0, 1, 2, 3, 10 days, sizes 10, `keep_last = 2`,
`keep_days = 5`, `max_bytes = 0`) exactly the age-10 artifact and its
manifest are deleted. -/
theorem c5_retention_matches_spec :
    (∀ (now : Int) (policy : RetentionPolicy) (objects : List ObjectInfo),
        applyRetention now policy objects = specRetention now policy objects) ∧
      (∀ (now : Int) (objects : List ObjectInfo),
        applyRetention now ⟨0, 0, 0⟩ objects = []) ∧
      applyRetention 0 ⟨2, 5, 0⟩ exampleListing = ["a4", ManifestKey "a4"] := by
  refine ⟨fun now policy objects => ?_, fun now objects => ?_, by decide⟩
  · simp [applyRetention, specRetention, retentionLoop_eq_specWalk]
  · simp [applyRetention]

/-! ## Config-file encryption envelope

`cryptoutil.DecryptConfig` (internal/cryptoutil). The envelope is the
4-byte magic "DBU1", a 2-byte big-endian version, a 12-byte nonce and the
AEAD ciphertext. AES-GCM itself is the Go standard library's AEAD,
external to the repository; it enters the model as a parameter
`aeadOpen nonce payload` that returns `none` exactly when authentication
fails. `aes.NewCipher` and `cipher.NewGCM` cannot fail for the 32-byte
keys the claim quantifies over, so their error returns are unreachable and
not modelled. -/

/-- The bytes of `configMagic = "DBU1"`. -/
def configMagic : Bytes := [68, 66, 85, 49]

/-- `configVer`, the single supported envelope version. -/
def configVer : Nat := 1

/-- `binary.BigEndian.Uint16(ciphertext[4:6])`. -/
def configVersionOf (ct : Bytes) : Nat := 256 * ct.getD 4 0 + ct.getD 5 0

/-- `ciphertext[6:18]`, the nonce. -/
def configNonce (ct : Bytes) : Bytes := (ct.drop 6).take 12

/-- `ciphertext[18:]`, the AEAD payload. -/
def configPayload (ct : Bytes) : Bytes := ct.drop 18

/-- `cryptoutil.DecryptConfig`: header length check, magic check, version
check, then AEAD open; each failure is an error and only the AEAD's full
output is ever returned. -/
def DecryptConfig (aeadOpen : Bytes → Bytes → Option Bytes) (ciphertext : Bytes) :
    Except Err Bytes :=
  if ciphertext.length < 4 + 2 + 12 then Except.error "config cipher too short"
  else if ciphertext.take 4 ≠ configMagic then Except.error "invalid config header"
  else if configVersionOf ciphertext ≠ configVer then
    Except.error "unsupported config version"
  else
    match aeadOpen (configNonce ciphertext) (configPayload ciphertext) with
    | none => Except.error "message authentication failed"
    | some plain => Except.ok plain

/-- C9: config-envelope decryption fails closed. For every input and every
AEAD, whenever the input is shorter than the 18-byte header, or its 4-byte
magic differs from "DBU1", or its big-endian version differs from the
supported version, or AEAD authentication fails, the result is an error —
and whenever it succeeds, the returned plaintext is exactly the AEAD's
full output for the envelope's nonce and payload, never anything partial. -/
theorem c9_decrypt_config_fails_closed (aeadOpen : Bytes → Bytes → Option Bytes)
    (ct : Bytes)
    (h : ct.length < 18 ∨ ct.take 4 ≠ configMagic ∨ configVersionOf ct ≠ configVer ∨
      aeadOpen (configNonce ct) (configPayload ct) = none) :
    (∃ msg, DecryptConfig aeadOpen ct = Except.error msg) ∧
      ∀ plain, DecryptConfig aeadOpen ct = Except.ok plain →
        aeadOpen (configNonce ct) (configPayload ct) = some plain := by
  constructor
  · rcases h with h | h | h | h
    · have h1 : ct.length < 4 + 2 + 12 := by omega
      simp [DecryptConfig, h1]
    · by_cases h1 : ct.length < 4 + 2 + 12 <;> simp [DecryptConfig, h1, h]
    · by_cases h1 : ct.length < 4 + 2 + 12 <;> by_cases h2 : ct.take 4 = configMagic <;>
        simp [DecryptConfig, h1, h2, h]
    · by_cases h1 : ct.length < 4 + 2 + 12 <;> by_cases h2 : ct.take 4 = configMagic <;>
        by_cases h3 : configVersionOf ct = configVer <;>
        simp [DecryptConfig, h1, h2, h3, h]
  · intro plain hp
    unfold DecryptConfig at hp
    by_cases h1 : ct.length < 4 + 2 + 12
    · simp [h1] at hp
    · by_cases h2 : ct.take 4 = configMagic
      · by_cases h3 : configVersionOf ct = configVer
        · cases haead : aeadOpen (configNonce ct) (configPayload ct) with
          | none => simp [h1, h2, h3, haead] at hp
          | some p =>
            simp [h1, h2, h3, haead] at hp
            exact congrArg some hp

        · simp [h1, h2, h3] at hp
      · simp [h1, h2] at hp

/-- C9 witness: the theorem at the empty input (shorter than the header)
with an always-failing AEAD. -/
theorem c9_decrypt_config_witness :
    (∃ msg, DecryptConfig (fun _ _ => none) [] = Except.error msg) ∧
      ∀ plain, DecryptConfig (fun _ _ => none) [] = Except.ok plain →
        (fun (_ _ : Bytes) => none) (configNonce []) (configPayload []) = some plain :=
  c9_decrypt_config_fails_closed (fun _ _ => none) [] (Or.inl (by decide))

/-! ## Object keys: util.BuildObjectKey and util.BuildPrefix

`util.BuildObjectKey` and `util.BuildPrefix` (internal/util/path.go) build
their result with Go's `path.Join`, which joins the elements (skipping
leading empty ones) with "/" and applies `path.Clean`: repeated slashes
collapse, "." elements disappear, and ".." elements erase the preceding
element (lexical simplification). The model implements splitting on '/',
joining, and Clean's element stack over the strings' characters. The Go
timestamp layout "20060102T150405Z" is modelled for the ranges
`time.Time` produces on valid in-range dates (each two-digit field below
100, year below 10000). -/

/-- Splitting a string at every '/' (each separator produces a boundary,
as `strings.Split` does). -/
def splitSlashAux (cur : List Char) : List Char → List String
  | [] => [String.mk cur.reverse]
  | c :: cs =>
    if c = '/' then String.mk cur.reverse :: splitSlashAux [] cs
    else splitSlashAux (c :: cur) cs

/-- Split on '/'. -/
def splitSlash (s : String) : List String := splitSlashAux [] s.data

/-- Join with "/" separators (Go's element joining inside `path.Join`:
after the leading empties are skipped, every further element contributes a
separator). -/
def joinSlash : List String → String
  | [] => ""
  | [p] => p
  | p :: rest => p ++ "/" ++ joinSlash rest

/-- One step of `path.Clean`'s element processing, with the output elements
held in reverse: empty and "." elements are dropped; ".." pops the
previous element, is dropped at the top of a rooted path and kept at the
top of a relative one; any other element is pushed. -/
def cleanStep (rooted : Bool) (stack : List String) (comp : String) : List String :=
  if comp = "" ∨ comp = "." then stack
  else if comp = ".." then
    match stack with
    | [] => if rooted then [] else [".."]
    | top :: rest => if top = ".." then comp :: top :: rest else rest
  else comp :: stack

/-- Go's `path.Clean` (lexical path simplification). -/
def goPathClean (s : String) : String :=
  if s = "" then "."
  else
    let rooted := s.data.head? == some '/'
    let stack := (splitSlash s).foldl (cleanStep rooted) []
    let out := joinSlash stack.reverse
    if rooted then "/" ++ out
    else if out = "" then "." else out

/-- Go's `path.Join`: the empty string when every element is empty,
otherwise the elements from the first non-empty one joined and cleaned. -/
def goPathJoin (elems : List String) : String :=
  if elems.all (fun e => e == "") then ""
  else goPathClean (joinSlash (elems.dropWhile (fun e => e == "")))

/-- `strings.Trim(s, "/")`: strip leading and trailing '/' characters. -/
def trimSlashes (s : String) : String :=
  String.mk (((s.data.dropWhile (fun c => c == '/')).reverse.dropWhile
    (fun c => c == '/')).reverse)

/-- A UTC civil time at one-second resolution (what `when.UTC()` formats). -/
structure DateTime where
  year : Nat
  month : Nat
  day : Nat
  hour : Nat
  minute : Nat
  second : Nat
  deriving DecidableEq, Repr

/-- Zero-padded fixed-width decimal rendering, most significant digit
first: `padNum w n` is the last `w` decimal digits of `n` (all of `n` when
`n < 10 ^ w`, which the Go layout guarantees for in-range fields). -/
def padNum : Nat → Nat → List Char
  | 0, _ => []
  | w + 1, n => Nat.digitChar (n / 10 ^ w % 10) :: padNum w (n % 10 ^ w)

/-- The characters of the Go layout "20060102T150405Z". -/
def formatTimestampChars (t : DateTime) : List Char :=
  padNum 4 t.year ++ (padNum 2 t.month ++ (padNum 2 t.day ++ ('T' ::
    (padNum 2 t.hour ++ (padNum 2 t.minute ++ (padNum 2 t.second ++ ['Z']))))))

/-- `when.UTC().Format("20060102T150405Z")`. -/
def formatTimestamp (t : DateTime) : String := String.mk (formatTimestampChars t)

/-- `util.BuildObjectKey(prefix, dbType, dbName, backupType, when,
extension)`: the trimmed prefix (when non-empty), dbType, dbName and
`timestamp_backupType[.extension]`, joined by `path.Join`. -/
def BuildObjectKey (pre dbType dbName backupType : String) (t : DateTime)
    (extension : String) : String :=
  let parts := (if pre ≠ "" then [trimSlashes pre] else []) ++ [dbType, dbName]
  let sfx0 := formatTimestamp t ++ "_" ++ backupType
  let sfx := if extension ≠ "" then sfx0 ++ "." ++ extension else sfx0
  goPathJoin (parts ++ [sfx])

/-- `util.BuildPrefix(prefix, dbType, dbName)`: the non-empty ones of
trimmed prefix, dbType and dbName, joined by `path.Join`. -/
def BuildPrefix (pre dbType dbName : String) : String :=
  goPathJoin ((if pre ≠ "" then [trimSlashes pre] else []) ++
    (if dbType ≠ "" then [dbType] else []) ++
    (if dbName ≠ "" then [dbName] else []))

/-- `buildExtension` (internal/app): base "backup", ".gz" for gzip or
".zst" for zstd, ".enc" when encryption is on, then
`strings.TrimPrefix(ext, ".")` (a no-op: the string starts with "backup"). -/
def buildExtension (compression : String) (encryption : Bool) : String :=
  let ext0 := "backup"
  let ext1 := if compression = "gzip" then ext0 ++ ".gz"
    else if compression = "zstd" then ext0 ++ ".zst" else ext0
  let ext2 := if encryption then ext1 ++ ".enc" else ext1
  if ext2.data.head? = some '.' then String.mk ext2.data.tail else ext2

/-- The storage backends' manifest classification of an object key:
`strings.HasSuffix(key, ManifestSuffix)` (internal/storage: `Local.Stat`,
`Local.List`; the S3 backend does the same). -/
def isManifestKey (key : String) : Bool :=
  ManifestSuffix.data.isSuffixOf key.data

/-- No '/' character occurs in the string. -/
def NoSlash (s : String) : Prop := '/' ∉ s.data

/-- A path element that `path.Clean` passes through unchanged. -/
def NormalComp (s : String) : Prop := s ≠ "" ∧ s ≠ "." ∧ s ≠ ".."

/-- Strict order on timestamps at one-second resolution (field-lexicographic,
the chronological order of valid civil times). -/
def dtLt (a b : DateTime) : Prop :=
  a.year < b.year ∨ (a.year = b.year ∧ (a.month < b.month ∨ (a.month = b.month ∧
    (a.day < b.day ∨ (a.day = b.day ∧ (a.hour < b.hour ∨ (a.hour = b.hour ∧
      (a.minute < b.minute ∨ (a.minute = b.minute ∧ a.second < b.second)))))))))

/-- Field ranges under which the Go layout renders each field at its fixed
width (every valid `time.Time` with year below 10000 satisfies them). -/
def dtValid (t : DateTime) : Prop :=
  t.year < 10000 ∧ t.month < 100 ∧ t.day < 100 ∧ t.hour < 100 ∧
    t.minute < 100 ∧ t.second < 100

theorem string_append_assoc (a b c : String) : (a ++ b) ++ c = a ++ (b ++ c) := by
  apply String.ext
  simp [String.data_append]

theorem joinSlash_cons_cons (p q : String) (rest : List String) :
    joinSlash (p :: q :: rest) = p ++ "/" ++ joinSlash (q :: rest) := rfl

theorem joinSlash_data_cons_cons (p q : String) (rest : List String) :
    (joinSlash (p :: q :: rest)).data = p.data ++ '/' :: (joinSlash (q :: rest)).data := by
  rw [joinSlash_cons_cons]
  simp [String.data_append]

theorem splitSlashAux_noslash (p : List Char) (h : '/' ∉ p) :
    ∀ cur : List Char, splitSlashAux cur p = [String.mk (cur.reverse ++ p)] := by
  induction p with
  | nil => intro cur; simp [splitSlashAux]
  | cons c cs ih =>
    intro cur
    have hc : ¬(c = '/') := fun hc => h (by simp [hc])
    rw [splitSlashAux, if_neg hc, ih (fun hm => h (List.mem_cons_of_mem c hm))]
    simp

theorem splitSlashAux_slash (p : List Char) (h : '/' ∉ p) :
    ∀ cur rest : List Char, splitSlashAux cur (p ++ '/' :: rest) =
      String.mk (cur.reverse ++ p) :: splitSlashAux [] rest := by
  induction p with
  | nil => intro cur rest; simp [splitSlashAux]
  | cons c cs ih =>
    intro cur rest
    have hc : ¬(c = '/') := fun hc => h (by simp [hc])
    rw [List.cons_append, splitSlashAux, if_neg hc,
      ih (fun hm => h (List.mem_cons_of_mem c hm))]
    simp

theorem splitSlash_joinSlash (parts : List String) (hne : parts ≠ [])
    (h : ∀ p ∈ parts, NoSlash p) :
    splitSlash (joinSlash parts) = parts := by
  induction parts with
  | nil => exact absurd rfl hne
  | cons p rest ih =>
    cases rest with
    | nil =>
      show splitSlashAux [] (joinSlash [p]).data = [p]
      have : joinSlash [p] = p := rfl
      rw [this, splitSlashAux_noslash p.data (h p (by simp)) []]
      simp
    | cons q rest2 =>
      show splitSlashAux [] (joinSlash (p :: q :: rest2)).data = p :: q :: rest2
      rw [joinSlash_data_cons_cons,
        splitSlashAux_slash p.data (h p (by simp)) [] (joinSlash (q :: rest2)).data]
      have hq := ih (by simp) (fun x hx => h x (List.mem_cons_of_mem p hx))
      simp only [splitSlash] at hq
      rw [hq]
      simp

theorem foldl_cleanStep_normal (rooted : Bool) (parts : List String)
    (h : ∀ p ∈ parts, NormalComp p) :
    ∀ acc : List String, parts.foldl (cleanStep rooted) acc = parts.reverse ++ acc := by
  induction parts with
  | nil => intro acc; simp
  | cons p ps ih =>
    intro acc
    obtain ⟨h1, h2, h3⟩ := h p (by simp)
    have hstep : cleanStep rooted acc p = p :: acc := by
      have hor : ¬(p = "" ∨ p = ".") := by
        rintro (hp | hp) <;> [exact h1 hp; exact h2 hp]
      simp [cleanStep, hor, h3]
    rw [List.foldl_cons, hstep, ih (fun x hx => h x (List.mem_cons_of_mem p hx))]
    simp

theorem dropWhile_eq_self_of_all {α : Type} (p : α → Bool) (l : List α)
    (h : ∀ c ∈ l, ¬p c = true) : l.dropWhile p = l := by
  cases l with
  | nil => rfl
  | cons c cs => simp [List.dropWhile_cons, h c (by simp)]

theorem trimSlashes_noslash (s : String) (h : NoSlash s) : trimSlashes s = s := by
  apply String.ext
  show (((s.data.dropWhile (fun c => c == '/')).reverse.dropWhile
    (fun c => c == '/')).reverse) = s.data
  have hall : ∀ c ∈ s.data, ¬((c == '/') = true) :=
    fun c hc hb => h (beq_iff_eq.mp hb ▸ hc)
  rw [dropWhile_eq_self_of_all _ _ hall,
    dropWhile_eq_self_of_all _ _ (fun c hc => hall c (List.mem_reverse.mp hc)),
    List.reverse_reverse]

theorem joinSlash_data_head (p : String) (rest : List String) :
    ∃ tail, (joinSlash (p :: rest)).data = p.data ++ tail := by
  cases rest with
  | nil => exact ⟨[], by simp [joinSlash]⟩
  | cons q rest2 => exact ⟨'/' :: (joinSlash (q :: rest2)).data, joinSlash_data_cons_cons p q rest2⟩

theorem goPathClean_joinSlash (parts : List String) (hne : parts ≠ [])
    (hnormal : ∀ p ∈ parts, NormalComp p) (hslash : ∀ p ∈ parts, NoSlash p) :
    goPathClean (joinSlash parts) = joinSlash parts := by
  obtain ⟨p, rest, rfl⟩ : ∃ p rest, parts = p :: rest := by
    cases parts with
    | nil => exact absurd rfl hne
    | cons p rest => exact ⟨p, rest, rfl⟩
  obtain ⟨tail, htail⟩ := joinSlash_data_head p rest
  obtain ⟨c, cs, hcd⟩ : ∃ c cs, p.data = c :: cs := by
    cases hd : p.data with
    | nil => exact absurd (String.ext hd) (hnormal p (by simp)).1
    | cons c cs => exact ⟨c, cs, rfl⟩
  have hcne : c ≠ '/' := fun hc => hslash p (by simp) (by simp [hcd, hc])
  have hsne : joinSlash (p :: rest) ≠ "" := by
    intro h0
    have := congrArg String.data h0
    rw [htail, hcd] at this
    simp at this
  have hhead : (joinSlash (p :: rest)).data.head? = some c := by
    rw [htail, hcd]; rfl
  have hrooted : ((joinSlash (p :: rest)).data.head? == some '/') = false := by
    rw [hhead]
    simp [hcne]
  rw [goPathClean, if_neg hsne]
  simp only [hrooted]
  rw [splitSlash_joinSlash (p :: rest) (by simp) hslash,
    foldl_cleanStep_normal false (p :: rest) hnormal []]
  simp only [List.append_nil, List.reverse_reverse, Bool.false_eq_true, if_false]
  rw [if_neg hsne]

theorem goPathJoin_normal (parts : List String) (hne : parts ≠ [])
    (hnormal : ∀ p ∈ parts, NormalComp p) (hslash : ∀ p ∈ parts, NoSlash p) :
    goPathJoin parts = joinSlash parts := by
  obtain ⟨p, rest, rfl⟩ : ∃ p rest, parts = p :: rest := by
    cases parts with
    | nil => exact absurd rfl hne
    | cons p rest => exact ⟨p, rest, rfl⟩
  have hp : ¬(p == "") = true := by
    simpa using (hnormal p (by simp)).1
  have hall : ¬((p :: rest).all (fun e => e == "")) = true := by
    simp only [List.all_cons, Bool.and_eq_true]
    rintro ⟨h1, -⟩
    exact hp h1
  rw [goPathJoin, if_neg hall]
  have hdrop : (p :: rest).dropWhile (fun e => e == "") = p :: rest := by
    rw [List.dropWhile_cons, if_neg hp]
  rw [hdrop, goPathClean_joinSlash (p :: rest) (by simp) hnormal hslash]

theorem joinSlash_append_singleton (parts : List String) (hne : parts ≠ []) (x : String) :
    joinSlash (parts ++ [x]) = joinSlash parts ++ "/" ++ x := by
  induction parts with
  | nil => exact absurd rfl hne
  | cons p rest ih =>
    cases rest with
    | nil => rfl
    | cons q rest2 =>
      have : (p :: q :: rest2) ++ [x] = p :: ((q :: rest2) ++ [x]) := rfl
      rw [this]
      have h2 : (q :: rest2) ++ [x] = q :: (rest2 ++ [x]) := rfl
      rw [h2, joinSlash_cons_cons, ← h2, ih (by simp), joinSlash_cons_cons]
      simp [string_append_assoc]

theorem padNum_length (w : Nat) : ∀ n : Nat, (padNum w n).length = w := by
  induction w with
  | zero => intro n; rfl
  | succ w ih => intro n; simp [padNum, ih]

theorem digitChar_lt (m n : Nat) (hmn : m < n) (hn : n < 10) :
    Nat.digitChar m < Nat.digitChar n := by
  have hb : ∀ m < 10, ∀ n < 10, m < n → Nat.digitChar m < Nat.digitChar n := by decide
  exact hb m (lt_trans hmn hn) n hn hmn

theorem digitChar_ne_slash (n : Nat) (h : n < 10) : Nat.digitChar n ≠ '/' := by
  have hb : ∀ n < 10, Nat.digitChar n ≠ '/' := by decide
  exact hb n h

theorem digitChar_ne_dot (n : Nat) (h : n < 10) : Nat.digitChar n ≠ '.' := by
  have hb : ∀ n < 10, Nat.digitChar n ≠ '.' := by decide
  exact hb n h

theorem padNum_lex_lt (w : Nat) : ∀ a b : Nat, a < b → b < 10 ^ w →
    List.Lex (fun x y : Char => x < y) (padNum w a) (padNum w b) := by
  induction w with
  | zero =>
    intro a b hab hb
    exact absurd hab (by omega)
  | succ w ih =>
    intro a b hab hb
    have hpow : 0 < (10 : Nat) ^ w := pow_pos (by norm_num) w
    have hsucc : (10 : Nat) ^ (w + 1) = 10 ^ w * 10 := pow_succ 10 w
    have hqb : b / 10 ^ w < 10 := by
      rw [Nat.div_lt_iff_lt_mul hpow]
      omega
    have hqa : a / 10 ^ w ≤ b / 10 ^ w := Nat.div_le_div_right (le_of_lt hab)
    have hqa10 : a / 10 ^ w < 10 := lt_of_le_of_lt hqa hqb
    rcases lt_or_eq_of_le hqa with hq | hq
    · apply List.Lex.rel
      show Nat.digitChar (a / 10 ^ w % 10) < Nat.digitChar (b / 10 ^ w % 10)
      rw [Nat.mod_eq_of_lt hqa10, Nat.mod_eq_of_lt hqb]
      exact digitChar_lt _ _ hq hqb
    · have e1 := Nat.div_add_mod a (10 ^ w)
      have e2 := Nat.div_add_mod b (10 ^ w)
      rw [hq] at e1
      have hmodlt : a % 10 ^ w < b % 10 ^ w := by omega
      simp only [padNum, hq]
      exact List.Lex.cons (ih (a % 10 ^ w) (b % 10 ^ w) hmodlt (Nat.mod_lt b hpow))

theorem lex_append (a b : List Char)
    (h : List.Lex (fun x y : Char => x < y) a b) :
    a.length = b.length → ∀ r s : List Char,
      List.Lex (fun x y : Char => x < y) (a ++ r) (b ++ s) := by
  induction h with
  | nil => intro hlen; simp at hlen
  | @cons x l₁ l₂ h ih =>
    intro hlen r s
    exact List.Lex.cons (ih (by simpa using hlen) r s)
  | @rel x l₁ y l₂ hxy =>
    intro _ r s
    exact List.Lex.rel hxy

theorem formatTimestampChars_lt (t1 t2 : DateTime) (h1 : dtValid t1) (h2 : dtValid t2)
    (hlt : dtLt t1 t2) :
    List.Lex (fun x y : Char => x < y)
      (formatTimestampChars t1) (formatTimestampChars t2) := by
  obtain ⟨hy1, hmo1, hd1, hh1, hmi1, hs1⟩ := h1
  obtain ⟨hy2, hmo2, hd2, hh2, hmi2, hs2⟩ := h2
  unfold formatTimestampChars
  rcases hlt with hy | ⟨hy, hlt⟩
  · exact lex_append _ _ (padNum_lex_lt 4 _ _ hy hy2) (by simp [padNum_length]) _ _
  · rw [hy]
    apply List.Lex.append_left
    rcases hlt with hmo | ⟨hmo, hlt⟩
    · exact lex_append _ _ (padNum_lex_lt 2 _ _ hmo hmo2) (by simp [padNum_length]) _ _
    · rw [hmo]
      apply List.Lex.append_left
      rcases hlt with hd | ⟨hd, hlt⟩
      · exact lex_append _ _ (padNum_lex_lt 2 _ _ hd hd2) (by simp [padNum_length]) _ _
      · rw [hd]
        apply List.Lex.append_left
        apply List.Lex.cons
        rcases hlt with hh | ⟨hh, hlt⟩
        · exact lex_append _ _ (padNum_lex_lt 2 _ _ hh hh2) (by simp [padNum_length]) _ _
        · rw [hh]
          apply List.Lex.append_left
          rcases hlt with hmi | ⟨hmi, hs⟩
          · exact lex_append _ _ (padNum_lex_lt 2 _ _ hmi hmi2)
              (by simp [padNum_length]) _ _
          · rw [hmi]
            apply List.Lex.append_left
            exact lex_append _ _ (padNum_lex_lt 2 _ _ hs hs2)
              (by simp [padNum_length]) _ _

theorem padNum_digits (w : Nat) : ∀ (n : Nat), ∀ c ∈ padNum w n,
    ∃ m, m < 10 ∧ c = Nat.digitChar m := by
  induction w with
  | zero => intro n c hc; simp [padNum] at hc
  | succ w ih =>
    intro n c hc
    simp only [padNum, List.mem_cons] at hc
    rcases hc with hc | hc
    · exact ⟨n / 10 ^ w % 10, Nat.mod_lt _ (by norm_num), hc⟩
    · exact ih _ c hc

theorem formatTimestampChars_chars (t : DateTime) :
    ∀ c ∈ formatTimestampChars t,
      (∃ m, m < 10 ∧ c = Nat.digitChar m) ∨ c = 'T' ∨ c = 'Z' := by
  intro c hc
  unfold formatTimestampChars at hc
  simp only [List.mem_append, List.mem_cons, List.mem_singleton] at hc
  rcases hc with h | h | h | h | h | h | h | h
  · exact Or.inl (padNum_digits 4 _ c h)
  · exact Or.inl (padNum_digits 2 _ c h)
  · exact Or.inl (padNum_digits 2 _ c h)
  · exact Or.inr (Or.inl h)
  · exact Or.inl (padNum_digits 2 _ c h)
  · exact Or.inl (padNum_digits 2 _ c h)
  · exact Or.inl (padNum_digits 2 _ c h)
  · rcases h with h | h
    · exact Or.inr (Or.inr h)
    · simp at h

theorem formatTimestampChars_noslash (t : DateTime) : '/' ∉ formatTimestampChars t := by
  intro h
  rcases formatTimestampChars_chars t '/' h with ⟨m, hm, hc⟩ | hc | hc
  · exact digitChar_ne_slash m hm hc.symm
  · exact absurd hc (by decide)
  · exact absurd hc (by decide)

theorem formatTimestampChars_headDigit (t : DateTime) :
    ∃ m, m < 10 ∧ (formatTimestampChars t).head? = some (Nat.digitChar m) := by
  refine ⟨t.year / 10 ^ 3 % 10, Nat.mod_lt _ (by norm_num), ?_⟩
  unfold formatTimestampChars
  simp [padNum]

theorem ts_prefixed_props (s : String) (t : DateTime) (tail : List Char)
    (hdata : s.data = formatTimestampChars t ++ tail) (htail : '/' ∉ tail) :
    NormalComp s ∧ NoSlash s := by
  obtain ⟨m, hm, hh⟩ := formatTimestampChars_headDigit t
  have hheads : s.data.head? = some (Nat.digitChar m) := by
    rw [hdata, List.head?_append, hh]
    rfl
  constructor
  · refine ⟨?_, ?_, ?_⟩ <;> intro h0 <;> rw [h0] at hheads
    · simp at hheads
    · have : ('.' : Char) = Nat.digitChar m := by
        simpa using hheads
      exact digitChar_ne_dot m hm this.symm
    · have : ('.' : Char) = Nat.digitChar m := by
        simpa using hheads
      exact digitChar_ne_dot m hm this.symm
  · intro hsl
    rw [hdata] at hsl
    rcases List.mem_append.mp hsl with h | h
    · exact formatTimestampChars_noslash t h
    · exact htail h

theorem goPathJoin_front_suffix (front : List String) (sfx : String)
    (hfront_ne : front ≠ [])
    (hn : ∀ p ∈ front, NormalComp p) (hs : ∀ p ∈ front, NoSlash p)
    (hsn : NormalComp sfx) (hss : NoSlash sfx) :
    goPathJoin (front ++ [sfx]) = goPathJoin front ++ "/" ++ sfx := by
  have hn' : ∀ p ∈ front ++ [sfx], NormalComp p := by
    intro p hp
    rcases List.mem_append.mp hp with h | h
    · exact hn p h
    · rw [List.mem_singleton.mp h]; exact hsn
  have hs' : ∀ p ∈ front ++ [sfx], NoSlash p := by
    intro p hp
    rcases List.mem_append.mp hp with h | h
    · exact hs p h
    · rw [List.mem_singleton.mp h]; exact hss
  rw [goPathJoin_normal (front ++ [sfx]) (by simp) hn' hs',
    goPathJoin_normal front hfront_ne hn hs,
    joinSlash_append_singleton front hfront_ne sfx]

theorem suffix_string_props (backupType : String) (t : DateTime) (extension : String)
    (hbt : NoSlash backupType) (hext : NoSlash extension) :
    NormalComp (if extension ≠ "" then
        formatTimestamp t ++ "_" ++ backupType ++ "." ++ extension
      else formatTimestamp t ++ "_" ++ backupType) ∧
      NoSlash (if extension ≠ "" then
        formatTimestamp t ++ "_" ++ backupType ++ "." ++ extension
      else formatTimestamp t ++ "_" ++ backupType) := by
  by_cases he : extension = ""
  · rw [if_neg (by simp [he])]
    apply ts_prefixed_props _ t ('_' :: backupType.data)
    · simp [String.data_append, formatTimestamp]
    · intro h
      rcases List.mem_cons.mp h with h | h
      · exact absurd h (by decide)
      · exact hbt h
  · rw [if_pos he]
    apply ts_prefixed_props _ t ('_' :: (backupType.data ++ '.' :: extension.data))
    · simp [String.data_append, formatTimestamp]
    · intro h
      rcases List.mem_cons.mp h with h | h
      · exact absurd h (by decide)
      · rcases List.mem_append.mp h with h | h
        · exact hbt h
        · rcases List.mem_cons.mp h with h | h
          · exact absurd h (by decide)
          · exact hext h

theorem BuildObjectKey_structure (pre dbType dbName backupType : String) (t : DateTime)
    (extension : String)
    (hpre : pre = "" ∨ (NoSlash pre ∧ NormalComp pre))
    (hT : NoSlash dbType ∧ NormalComp dbType)
    (hN : NoSlash dbName ∧ NormalComp dbName)
    (hbt : NoSlash backupType)
    (hext : NoSlash extension) :
    BuildObjectKey pre dbType dbName backupType t extension =
      BuildPrefix pre dbType dbName ++ "/" ++
        (if extension ≠ "" then formatTimestamp t ++ "_" ++ backupType ++ "." ++ extension
          else formatTimestamp t ++ "_" ++ backupType) := by
  obtain ⟨hsn, hss⟩ := suffix_string_props backupType t extension hbt hext
  have hunfold : BuildObjectKey pre dbType dbName backupType t extension =
      goPathJoin (((if pre ≠ "" then [trimSlashes pre] else []) ++ [dbType, dbName]) ++
        [if extension ≠ "" then formatTimestamp t ++ "_" ++ backupType ++ "." ++ extension
          else formatTimestamp t ++ "_" ++ backupType]) := rfl
  have hbp : BuildPrefix pre dbType dbName =
      goPathJoin ((if pre ≠ "" then [trimSlashes pre] else []) ++
        (if dbType ≠ "" then [dbType] else []) ++
        (if dbName ≠ "" then [dbName] else [])) := rfl
  have e2 : (if dbType ≠ "" then [dbType] else []) = [dbType] := if_pos hT.2.1
  have e3 : (if dbName ≠ "" then [dbName] else []) = [dbName] := if_pos hN.2.1
  by_cases hpe : pre = ""
  · have e1 : (if pre ≠ "" then [trimSlashes pre] else []) = ([] : List String) := by
      simp [hpe]
    rw [hunfold, hbp, e1, e2, e3]
    have hfn : ∀ p ∈ [dbType, dbName], NormalComp p := by
      intro p hp
      rcases List.mem_cons.mp hp with h | h
      · rw [h]; exact hT.2
      · rw [List.mem_singleton.mp h]; exact hN.2
    have hfs : ∀ p ∈ [dbType, dbName], NoSlash p := by
      intro p hp
      rcases List.mem_cons.mp hp with h | h
      · rw [h]; exact hT.1
      · rw [List.mem_singleton.mp h]; exact hN.1
    simpa using goPathJoin_front_suffix [dbType, dbName] _ (by simp) hfn hfs hsn hss
  · obtain ⟨hps, hpn⟩ := hpre.resolve_left hpe
    have e1 : (if pre ≠ "" then [trimSlashes pre] else []) = [pre] := by
      rw [if_pos hpe, trimSlashes_noslash pre hps]
    rw [hunfold, hbp, e1, e2, e3]
    have hfn : ∀ p ∈ [pre, dbType, dbName], NormalComp p := by
      intro p hp
      rcases List.mem_cons.mp hp with h | h
      · rw [h]; exact hpn
      · rcases List.mem_cons.mp h with h | h
        · rw [h]; exact hT.2
        · rw [List.mem_singleton.mp h]; exact hN.2
    have hfs : ∀ p ∈ [pre, dbType, dbName], NoSlash p := by
      intro p hp
      rcases List.mem_cons.mp hp with h | h
      · rw [h]; exact hps
      · rcases List.mem_cons.mp h with h | h
        · rw [h]; exact hT.1
        · rw [List.mem_singleton.mp h]; exact hN.1
    simpa using goPathJoin_front_suffix [pre, dbType, dbName] _ (by simp) hfn hfs hsn hss

theorem formatTimestampChars_length (t : DateTime) :
    (formatTimestampChars t).length = 16 := by
  simp [formatTimestampChars, padNum_length]

theorem suffix_data_lt (backupType : String) (extension : String) (t1 t2 : DateTime)
    (hv1 : dtValid t1) (hv2 : dtValid t2) (hlt : dtLt t1 t2) :
    List.Lex (fun x y : Char => x < y)
      (if extension ≠ "" then formatTimestamp t1 ++ "_" ++ backupType ++ "." ++ extension
        else formatTimestamp t1 ++ "_" ++ backupType).data
      (if extension ≠ "" then formatTimestamp t2 ++ "_" ++ backupType ++ "." ++ extension
        else formatTimestamp t2 ++ "_" ++ backupType).data := by
  have hts := formatTimestampChars_lt t1 t2 hv1 hv2 hlt
  have hlen : (formatTimestampChars t1).length = (formatTimestampChars t2).length := by
    simp [formatTimestampChars_length]
  by_cases he : extension = ""
  · rw [if_neg (by simp [he]), if_neg (by simp [he])]
    have d1 : (formatTimestamp t1 ++ "_" ++ backupType).data =
        formatTimestampChars t1 ++ ('_' :: backupType.data) := by
      simp [String.data_append, formatTimestamp]
    have d2 : (formatTimestamp t2 ++ "_" ++ backupType).data =
        formatTimestampChars t2 ++ ('_' :: backupType.data) := by
      simp [String.data_append, formatTimestamp]
    rw [d1, d2]
    exact lex_append _ _ hts hlen _ _
  · rw [if_pos he, if_pos he]
    have d1 : (formatTimestamp t1 ++ "_" ++ backupType ++ "." ++ extension).data =
        formatTimestampChars t1 ++ ('_' :: (backupType.data ++ '.' :: extension.data)) := by
      simp [String.data_append, formatTimestamp]
    have d2 : (formatTimestamp t2 ++ "_" ++ backupType ++ "." ++ extension).data =
        formatTimestampChars t2 ++ ('_' :: (backupType.data ++ '.' :: extension.data)) := by
      simp [String.data_append, formatTimestamp]
    rw [d1, d2]
    exact lex_append _ _ hts hlen _ _

/-- C8 (amended): for clean path components — a prefix that is empty or
slash-free and not "." or ".."; non-empty, slash-free, non-dot dbType and
dbName; slash-free backup type and extension — and timestamps whose fields
are in the ranges the Go layout renders fixed-width (year below 10000),
`BuildObjectKey` is strictly increasing in the timestamp under
lexicographic string order, and `BuildPrefix` of the same arguments is a
strict prefix of every built key. Without the slash-freeness amendment the
claim is false: `path.Join` cleans ".." segments (see the counterexample). -/
theorem c8_key_ordering_and_prefix (pre dbType dbName backupType extension : String)
    (t1 t2 : DateTime)
    (hpre : pre = "" ∨ (NoSlash pre ∧ NormalComp pre))
    (hT : NoSlash dbType ∧ NormalComp dbType)
    (hN : NoSlash dbName ∧ NormalComp dbName)
    (hbt : NoSlash backupType)
    (hext : NoSlash extension)
    (hv1 : dtValid t1) (hv2 : dtValid t2) (hlt : dtLt t1 t2) :
    BuildObjectKey pre dbType dbName backupType t1 extension <
        BuildObjectKey pre dbType dbName backupType t2 extension ∧
      (BuildPrefix pre dbType dbName).data <+:
        (BuildObjectKey pre dbType dbName backupType t1 extension).data ∧
      BuildPrefix pre dbType dbName ≠
        BuildObjectKey pre dbType dbName backupType t1 extension := by
  have hk1 := BuildObjectKey_structure pre dbType dbName backupType t1 extension
    hpre hT hN hbt hext
  have hk2 := BuildObjectKey_structure pre dbType dbName backupType t2 extension
    hpre hT hN hbt hext
  have hdata : ∀ s : String,
      (BuildPrefix pre dbType dbName ++ "/" ++ s).data =
        (BuildPrefix pre dbType dbName).data ++ ['/'] ++ s.data := by
    intro s
    simp [String.data_append]
  refine ⟨?_, ?_, ?_⟩
  · rw [hk1, hk2, String.lt_iff_toList_lt]
    show (BuildPrefix pre dbType dbName ++ "/" ++ _).data <
      (BuildPrefix pre dbType dbName ++ "/" ++ _).data
    rw [hdata, hdata]
    show List.Lex (fun x y : Char => x < y) _ _
    rw [List.append_assoc, List.append_assoc]
    apply List.Lex.append_left
    exact List.Lex.cons (suffix_data_lt backupType extension t1 t2 hv1 hv2 hlt)
  · rw [hk1, hdata]
    rw [List.append_assoc]
    exact List.prefix_append _ _
  · intro h0
    have hlen := congrArg (fun s : String => s.data.length) h0
    rw [hk1] at hlen
    simp only [hdata, List.length_append] at hlen
    simp at hlen
    omega

instance (s : String) : Decidable (NoSlash s) := by
  unfold NoSlash
  infer_instance

instance (s : String) : Decidable (NormalComp s) := by
  unfold NormalComp
  infer_instance

instance (a b : DateTime) : Decidable (dtLt a b) := by
  unfold dtLt
  infer_instance

instance (t : DateTime) : Decidable (dtValid t) := by
  unfold dtValid
  infer_instance

/-- C8 counterexample: with backup type "/.." (the claim constrains only
dbType and dbName to be non-empty), `path.Join`'s cleaning erases the
timestamp element: the keys for two increasing timestamps are the same
string "p/t/n", so the key for the earlier timestamp is not
lexicographically smaller, and `BuildPrefix` ("p/t/n" as well) is not a
strict prefix of the key. -/
theorem c8_key_ordering_counterexample :
    dtLt ⟨2024, 1, 1, 0, 0, 0⟩ ⟨2024, 1, 1, 0, 0, 1⟩ ∧
      BuildObjectKey "p" "t" "n" "/.." ⟨2024, 1, 1, 0, 0, 0⟩ "" =
        BuildObjectKey "p" "t" "n" "/.." ⟨2024, 1, 1, 0, 0, 1⟩ "" ∧
      ¬BuildObjectKey "p" "t" "n" "/.." ⟨2024, 1, 1, 0, 0, 0⟩ "" <
          BuildObjectKey "p" "t" "n" "/.." ⟨2024, 1, 1, 0, 0, 1⟩ "" ∧
      BuildPrefix "p" "t" "n" =
        BuildObjectKey "p" "t" "n" "/.." ⟨2024, 1, 1, 0, 0, 0⟩ "" := by
  have heq : BuildObjectKey "p" "t" "n" "/.." ⟨2024, 1, 1, 0, 0, 0⟩ "" =
      BuildObjectKey "p" "t" "n" "/.." ⟨2024, 1, 1, 0, 0, 1⟩ "" := by decide
  refine ⟨by decide, heq, ?_, by decide⟩
  rw [heq]
  exact lt_irrefl _

/-- C8 witness: the amended ordering and prefix theorem at clean concrete
inputs one second apart. -/
theorem c8_key_ordering_witness :
    BuildObjectKey "backups" "postgres" "app" "full" ⟨2024, 1, 1, 0, 0, 0⟩ "backup.gz" <
        BuildObjectKey "backups" "postgres" "app" "full" ⟨2024, 1, 1, 0, 0, 1⟩ "backup.gz" ∧
      (BuildPrefix "backups" "postgres" "app").data <+:
        (BuildObjectKey "backups" "postgres" "app" "full"
          ⟨2024, 1, 1, 0, 0, 0⟩ "backup.gz").data ∧
      BuildPrefix "backups" "postgres" "app" ≠
        BuildObjectKey "backups" "postgres" "app" "full"
          ⟨2024, 1, 1, 0, 0, 0⟩ "backup.gz" :=
  c8_key_ordering_and_prefix "backups" "postgres" "app" "full" "backup.gz"
    ⟨2024, 1, 1, 0, 0, 0⟩ ⟨2024, 1, 1, 0, 0, 1⟩
    (Or.inr (by refine ⟨by decide, by decide, by decide, by decide⟩))
    ⟨by decide, by decide, by decide, by decide⟩
    ⟨by decide, by decide, by decide, by decide⟩
    (by decide) (by decide) (by decide) (by decide) (by decide)

theorem buildExtension_cases (c : String) (e : Bool) :
    buildExtension c e = "backup" ∨ buildExtension c e = "backup.gz" ∨
      buildExtension c e = "backup.zst" ∨ buildExtension c e = "backup.enc" ∨
      buildExtension c e = "backup.gz.enc" ∨ buildExtension c e = "backup.zst.enc" := by
  by_cases hg : c = "gzip"
  · subst hg
    cases e <;> decide
  · by_cases hz : c = "zstd"
    · subst hz
      cases e <;> decide
    · cases e <;> simp [buildExtension, hg, hz]

theorem key_with_ext_not_manifest (pre dbType dbName backupType : String) (t : DateTime)
    (E : String)
    (hpre : pre = "" ∨ (NoSlash pre ∧ NormalComp pre))
    (hT : NoSlash dbType ∧ NormalComp dbType)
    (hN : NoSlash dbName ∧ NormalComp dbName)
    (hbt : NoSlash backupType)
    (hEslash : NoSlash E) (hEne : E ≠ "")
    (hlast : E.data.getLast? ≠ some 'n') :
    isManifestKey (BuildObjectKey pre dbType dbName backupType t E) = false := by
  have hb := BuildObjectKey_structure pre dbType dbName backupType t E hpre hT hN hbt hEslash
  rw [if_pos hEne] at hb
  have hEd : E.data ≠ [] := fun h0 => hEne (String.ext h0)
  by_contra hms
  rw [Bool.not_eq_false] at hms
  rw [hb] at hms
  unfold isManifestKey at hms
  have hsuf := List.isSuffixOf_iff_suffix.mp hms
  obtain ⟨pref, hpref⟩ := hsuf
  have h1 : (BuildPrefix pre dbType dbName ++ "/" ++
      (formatTimestamp t ++ "_" ++ backupType ++ "." ++ E)).data.getLast? = some 'n' := by
    rw [← hpref, List.getLast?_append_of_ne_nil pref (by decide)]
    decide
  have hX : (formatTimestamp t ++ "_" ++ backupType ++ "." ++ E).data ≠ [] := by
    rw [String.data_append]
    intro h0
    rcases List.append_eq_nil.mp h0 with ⟨-, h0r⟩
    exact hEd h0r
  have h2 : (BuildPrefix pre dbType dbName ++ "/" ++
      (formatTimestamp t ++ "_" ++ backupType ++ "." ++ E)).data.getLast? =
      E.data.getLast? := by
    rw [String.data_append, List.getLast?_append_of_ne_nil _ hX,
      String.data_append, List.getLast?_append_of_ne_nil _ hEd]
  rw [h2] at h1
  exact hlast h1

/-- C10: the artifact extension always begins with "backup" and never
carries the manifest suffix; every manifest key derived by `ManifestKey`
does carry it; hence the suffix-based `IsManifest` classification of the
storage backends never takes an artifact key built by `Backup` (from clean
path components) for a manifest, while it always classifies the sibling
manifest object as one. -/
theorem c10_manifest_classification :
    (∀ (c : String) (e : Bool),
        "backup".data.isPrefixOf (buildExtension c e).data = true ∧
          isManifestKey (buildExtension c e) = false) ∧
      (∀ k : String, isManifestKey (ManifestKey k) = true) ∧
      ∀ (pre dbType dbName backupType : String) (t : DateTime) (c : String) (e : Bool),
        pre = "" ∨ (NoSlash pre ∧ NormalComp pre) →
        NoSlash dbType ∧ NormalComp dbType →
        NoSlash dbName ∧ NormalComp dbName →
        NoSlash backupType →
        isManifestKey
          (BuildObjectKey pre dbType dbName backupType t (buildExtension c e)) = false := by
  refine ⟨?_, ?_, ?_⟩
  · intro c e
    rcases buildExtension_cases c e with h | h | h | h | h | h <;> rw [h] <;> constructor <;>
      decide
  · intro k
    unfold isManifestKey ManifestKey
    rw [List.isSuffixOf_iff_suffix, String.data_append]
    exact List.suffix_append _ _
  · intro pre dbType dbName backupType t c e hpre hT hN hbt
    rcases buildExtension_cases c e with h | h | h | h | h | h <;> rw [h] <;>
      exact key_with_ext_not_manifest pre dbType dbName backupType t _ hpre hT hN hbt
        (by decide) (by decide) (by decide)

/-- C10 witness: the classification theorem at concrete inputs. -/
theorem c10_manifest_classification_witness :
    ("backup".data.isPrefixOf (buildExtension "gzip" true).data = true ∧
        isManifestKey (buildExtension "gzip" true) = false) ∧
      isManifestKey (ManifestKey "backups/postgres/app/x.backup") = true ∧
      isManifestKey (BuildObjectKey "backups" "postgres" "app" "full"
        ⟨2024, 1, 1, 0, 0, 0⟩ (buildExtension "gzip" true)) = false :=
  ⟨c10_manifest_classification.1 "gzip" true,
    c10_manifest_classification.2.1 "backups/postgres/app/x.backup",
    c10_manifest_classification.2.2 "backups" "postgres" "app" "full"
      ⟨2024, 1, 1, 0, 0, 0⟩ "gzip" true
      (Or.inr ⟨by decide, by decide, by decide, by decide⟩)
      ⟨by decide, by decide, by decide, by decide⟩
      ⟨by decide, by decide, by decide, by decide⟩ (by decide)⟩
